import Mathlib

/-!
Verification of the FarmAhorra order-commit core.

Shallow embedding of:
- `src/apis/farmacia_api/routes_orders.py` (`create_order`): the per-pharmacy
  order commit engine over a Mongo catalog collection;
- `src/apis/farmahorra_api/app_farmahorra.py` (`list_products`): the
  orchestrator catalog aggregation;
- `src/jobs/order_generator/src/runner.py` and `order_builder.py`: the
  synthetic order generator loop and its local stock mirror.

The Mongo catalog collection is modelled as an association list of documents
keyed by `package_ndc_11`; the collection carries a unique index on that key
(`farma_api.py`, `create_index("package_ndc_11", unique=True)`), which appears
below as the hypothesis that the key list has no duplicates. Monetary values
are rationals; Python's 2-decimal `round` is modelled by a fixed
round-to-2-decimals function `round2` (Python rounds binary floats half to
even; the properties proved here are structural — which expression is rounded
at which step — and are insensitive to the tie-breaking rule).
-/

set_option autoImplicit false

namespace FarmAhorra

/-- A catalog document, projecting exactly the fields `create_order` reads
(`price`, `descripcion`, `generic_name`, `stock`).  `stock = none` models a
document whose stock field is absent or null; `price = none` likewise. -/
structure Product where
  price : Option ℚ
  descripcion : Option String
  generic_name : Option String
  stock : Option Int
deriving Repr, DecidableEq

/-- The catalog collection: documents keyed by `package_ndc_11`. -/
abbrev Catalog := List (String × Product)

/-- `find_one({"package_ndc_11": ndc})`: first document with the given key. -/
def findProd : Catalog → String → Option Product
  | [], _ => none
  | (k, p) :: rest, ndc => if k = ndc then some p else findProd rest ndc

/-- The Mongo filter `{"stock": {"$gte": qty}}`: matches only a numeric stock
value that is at least `qty` (a missing or null stock never matches). -/
def stockGte (s : Option Int) (qty : Nat) : Bool :=
  match s with
  | some v => (qty : Int) ≤ v
  | none => false

/-- `update_one({"package_ndc_11": ndc, "stock": {"$gte": qty}},
{"$inc": {"stock": -qty}})` (routes_orders.py lines 158-161): decrement the
first document matching both conditions; the returned flag is
`modified_count == 1`.  The `$set` of `updated_at` is not modelled (no claim
mentions timestamps). -/
def condDecrement : Catalog → String → Nat → Catalog × Bool
  | [], _, _ => ([], false)
  | (k, p) :: rest, ndc, qty =>
    if k = ndc ∧ stockGte p.stock qty then
      ((k, { p with stock := p.stock.map (fun v => v - qty) }) :: rest, true)
    else
      let r := condDecrement rest ndc qty
      ((k, p) :: r.1, r.2)

/-- `update_one({"package_ndc_11": ndc}, {"$inc": {"stock": qty}})`
(rollback, lines 170-173 and 240): add `qty` back to the first document with
the given key.  The engine only ever applies this to documents it has just
decremented, whose stock is a number, so the `none` branch (where Mongo's
`$inc` would behave differently on a null field) is unreachable here. -/
def incStock : Catalog → String → Nat → Catalog
  | [], _, _ => []
  | (k, p) :: rest, ndc, qty =>
    if k = ndc then
      (k, { p with stock := p.stock.map (fun v => v + qty) }) :: rest
    else
      (k, p) :: incStock rest ndc qty

/-- `for done_ndc, done_qty in reversed(decremented): ...` — undo the applied
decrements in reverse application order.  `done` is kept in application
order, as the Python list is. -/
def rollback (c : Catalog) (done : List (String × Nat)) : Catalog :=
  done.reverse.foldl (fun acc e => incStock acc e.1 e.2) c

/-- `int((doc or {}).get("stock") or 0)` (line 166): the raw stock read used
in the 409 payload; a missing document, or a missing/null stock field, reads
as 0. -/
def rawAvailable (c : Catalog) (ndc : String) : Int :=
  ((findProd c ndc).bind (fun p => p.stock)).getD 0

/-- Outcome of the decrement loop (step 2 of `create_order`). -/
inductive CommitOutcome where
  | success (catalog : Catalog) (done : List (String × Nat))
  | conflict (catalog : Catalog) (ndc : String) (requested : Nat) (available : Int)
deriving Repr, DecidableEq

/-- One requested order line (`OrderItem` model): an NDC-11 code and a
quantity (pydantic enforces `quantity ≥ 1` before the handler runs). -/
structure OrderItem where
  package_ndc_11 : String
  quantity : Nat
deriving Repr, DecidableEq

/-- The decrement loop of `create_order` (lines 152-190): for each line in
request order attempt the conditional decrement; on the first rejection read
the current stock for the 409 payload, roll back the applied decrements in
reverse order, and stop.  The conflict's catalog is the post-rollback state;
its `available` is `max(available, 0)` (line 184) read at the instant of
conflict, before the rollback. -/
def commitLoop (c : Catalog) (done : List (String × Nat)) :
    List OrderItem → CommitOutcome
  | [] => .success c done
  | it :: rest =>
    let r := condDecrement c it.package_ndc_11 it.quantity
    if r.2 then
      commitLoop r.1 (done ++ [(it.package_ndc_11, it.quantity)]) rest
    else
      .conflict (rollback c done) it.package_ndc_11 it.quantity
        (max (rawAvailable c it.package_ndc_11) 0)

/-- `^\d{11}$` (`NDC11_RE`, line 38): exactly 11 digits. -/
def isValidNDC (s : String) : Bool :=
  s.length = 11 && s.data.all Char.isDigit

/-- Rounding to 2 decimal places, standing for Python's `round(x, 2)`. -/
def round2 (x : ℚ) : ℚ := (round (x * 100) : ℚ) / 100

/-- An order line as returned (`OrderItemOut`): the request line enriched
with the price snapshot. -/
structure OrderItemOut where
  package_ndc_11 : String
  quantity : Nat
  unit_price : ℚ
  line_total : ℚ
  descripcion : Option String
  generic_name : Option String
deriving Repr, DecidableEq

/-- The body of the pricing loop (lines 195-209) for a single line: the price
and descriptions come from `prod_map`, the single catalog read of step 1
(never re-read), with `float(prod.get("price") or 0.0)` reading a missing or
null price as 0. -/
def priceLine (c : Catalog) (it : OrderItem) : OrderItemOut :=
  let prod := (findProd c it.package_ndc_11).getD ⟨none, none, none, none⟩
  let unit_price := prod.price.getD 0
  let line_total := round2 (unit_price * (it.quantity : ℚ))
  ⟨it.package_ndc_11, it.quantity, unit_price, line_total,
   prod.descripcion, prod.generic_name⟩

/-- The pricing loop (step 3, lines 192-209): build the enriched lines and
accumulate `subtotal = round(subtotal + line_total, 2)` incrementally.
`c` is the catalog as read in step 1, before any decrement. -/
def priceLinesAux (c : Catalog) (acc : List OrderItemOut) (subtotal : ℚ) :
    List OrderItem → List OrderItemOut × ℚ
  | [] => (acc, subtotal)
  | it :: rest =>
    let o := priceLine c it
    priceLinesAux c (acc ++ [o]) (round2 (subtotal + o.line_total)) rest

/-- `items_out = []; subtotal = 0.0; for it in payload.items: ...`.  In the
source this whole block sits inside the decrement loop and is recomputed,
with identical results, once per successfully decremented line (it is pure
and resets its accumulators); its value after the loop — the only use —
equals this single computation over all lines. -/
def priceLines (c : Catalog) (items : List OrderItem) : List OrderItemOut × ℚ :=
  priceLinesAux c [] 0 items

/-- The persisted order document (`order_doc`, lines 217-228), minus the
fields no claim mentions: the random `order_id` (UUID), the `confirmed_at`
timestamp and the `tenant` tag, which are environment-supplied. -/
structure OrderDoc where
  items : List OrderItemOut
  subtotal : ℚ
  discount_pct : ℚ
  discount : ℚ
  total : ℚ
  external_order_id : Option String
  client_id : Option String
deriving Repr, DecidableEq

/-- The HTTP outcome of `POST /orders`. -/
inductive OrderResult where
  | ok (doc : OrderDoc)
  | validationError (msg : String)
  | notFound (missing : List String)
  | stockConflict (ndc : String) (requested : Nat) (available : Int)
  | serverError
deriving Repr, DecidableEq

/-- The request payload (`OrderCreate`).  `discount_pct` is the value of
`float(payload.discount_pct or 0.0)`: pydantic defaults it to 0 and a null
collapses to 0 at that read. -/
structure OrderCreate where
  items : List OrderItem
  external_order_id : Option String
  client_id : Option String
  discount_pct : ℚ
deriving Repr, DecidableEq

/-- What one `POST /orders` request leaves behind: the catalog state, the
order document inserted into `orders_<tenant>` (if any), and the response. -/
structure CommitResult where
  catalog : Catalog
  persisted : Option OrderDoc
  result : OrderResult
deriving Repr, DecidableEq

/-- `create_order` (routes_orders.py lines 110-241).  `persistOk` models
whether `orders_coll.insert_one` succeeds; when it raises, the handler's
generic `except Exception` branch (lines 237-241) rolls every decrement back
and answers 500. -/
def create_order (c : Catalog) (persistOk : Bool) (payload : OrderCreate) :
    CommitResult :=
  if payload.items.isEmpty then
    ⟨c, none, .validationError "Debe incluir al menos un item"⟩
  else
    match payload.items.find? (fun it => ! isValidNDC it.package_ndc_11) with
    | some it => ⟨c, none, .validationError ("NDC invalido: " ++ it.package_ndc_11)⟩
    | none =>
      let ndcs := payload.items.map OrderItem.package_ndc_11
      let missing := ndcs.filter (fun ndc => (findProd c ndc).isNone)
      if missing.isEmpty then
        match commitLoop c [] payload.items with
        | .conflict c2 ndc req avail => ⟨c2, none, .stockConflict ndc req avail⟩
        | .success c2 done =>
          let pr := priceLines c payload.items
          let pct := payload.discount_pct
          let discount_amount := round2 (pr.2 * pct / 100)
          let total := round2 (pr.2 - discount_amount)
          let doc : OrderDoc :=
            ⟨pr.1, pr.2, pct, discount_amount, total,
             payload.external_order_id, payload.client_id⟩
          if persistOk then ⟨c2, some doc, .ok doc⟩
          else ⟨rollback c2 done, none, .serverError⟩
      else ⟨c, none, .notFound missing⟩

/-- Stock of the (unique) catalog document for `ndc`, when present and
numeric. -/
def stockOf (c : Catalog) (ndc : String) : Option Int :=
  (findProd c ndc).bind (fun p => p.stock)

/-- Every document's stock is non-negative (a missing/null stock reads as 0,
as the engine itself does). -/
def stocksNonneg (c : Catalog) : Prop :=
  ∀ e ∈ c, 0 ≤ e.2.stock.getD 0

instance (c : Catalog) : Decidable (stocksNonneg c) := by
  unfold stocksNonneg; infer_instance

/-- The catalog state after the first `k` lines' conditional decrements, used
to name the instant of a conflict at line `k`. -/
def applyPrefix (c : Catalog) (items : List OrderItem) (k : Nat) : Catalog :=
  (items.take k).foldl
    (fun acc it => (condDecrement acc it.package_ndc_11 it.quantity).1) c

/-! ### Orchestrator catalog aggregation (`app_farmahorra.py`, `list_products`) -/

/-- One item of a pharmacy catalog as the orchestrator sees it: the two
fields `list_products` inspects (`id_farmacia`, `stock`) plus `payload`
standing for all remaining fields, which pass through untouched. -/
structure CatalogItem where
  id_farmacia : Option String
  stock : Option Int
  payload : String
deriving Repr, DecidableEq

/-- Lines 264-267: add `id_farmacia = fid` to an item only when the item does
not already carry an `id_farmacia` field; a pre-existing value is kept. -/
def tagItem (fid : String) (it : CatalogItem) : CatalogItem :=
  if it.id_farmacia.isNone then { it with id_farmacia := some fid } else it

/-- `fetch_catalog(fid, url)` (lines 253-274).  `resp = none` models every
path that contributes nothing: a raised exception or timeout, a non-200
status, or a non-list body.  Otherwise the items are tagged and, when
`in_stock_only`, filtered to `it.get("stock", 0) > 0`. -/
def fetch_catalog (fid : String) (resp : Option (List CatalogItem))
    (in_stock_only : Bool) : List CatalogItem :=
  match resp with
  | none => []
  | some items =>
    let tagged := items.map (tagItem fid)
    if in_stock_only then tagged.filter (fun it => 0 < it.stock.getD 0)
    else tagged

/-- The `GET /products` response shape (lines 289-295). -/
structure ProductsResponse where
  count : Nat
  total : Nat
  limit : Nat
  offset : Nat
  items : List CatalogItem
deriving Repr, DecidableEq

/-- `GET /products` (lines 232-295).  `pharmacies` is the `PHARMACIES`
registry paired with what each pharmacy's `/catalog/products` call would
yield (`none` = error/timeout/non-200/non-list).  `limit`/`offset` are taken
non-negative, matching Python's slice `combined[offset : offset + limit]` on
that domain. -/
def list_products (pharmacies : List (String × Option (List CatalogItem)))
    (id_farmacia : Option String) (in_stock_only : Bool)
    (limit offset : Nat) : ProductsResponse :=
  let farmacia_ids : List String :=
    match id_farmacia with
    | some fid => [fid]
    | none => pharmacies.map Prod.fst
  let consulted := farmacia_ids.filter
    (fun fid => (pharmacies.lookup fid).isSome)
  let results := consulted.map
    (fun fid => fetch_catalog fid ((pharmacies.lookup fid).getD none) in_stock_only)
  let combined := results.flatten
  let sliced := (combined.drop offset).take limit
  ⟨sliced.length, combined.length, limit, offset, sliced⟩

/-! ### Synthetic order generator (`runner.py`, `order_builder.py`) -/

/-- One entry of the generator's local stock mirror
(`CatalogPool = {farm: [{package_ndc_11, stock}, ...]}`). -/
structure MirrorItem where
  package_ndc_11 : String
  stock : Int
deriving Repr, DecidableEq

/-- A pharmacy's mirror list. -/
abbrev Pool := List MirrorItem

/-- The whole mirror, keyed by pharmacy id. -/
abbrev Pools := List (String × Pool)

/-- `pools[farm_id][idx]["stock"] -= qty; if ... <= 0: pools[farm_id].pop(idx)`
for one pharmacy's list (`apply_local_decrement`, order_builder.py lines
146-149).  An out-of-range `idx` would raise in Python; it is unreachable
(the index always comes from a successful `_select_candidate`). -/
def decrementAt (pool : Pool) (idx : Nat) (qty : Nat) : Pool :=
  match pool.get? idx with
  | none => pool
  | some it =>
    let it2 : MirrorItem := { it with stock := it.stock - qty }
    let updated := pool.set idx it2
    if it2.stock ≤ 0 then updated.eraseIdx idx else updated

/-- `OrderBuilder.apply_local_decrement(pools, farm_id, idx, qty)`: mutate
only the selected pharmacy's list. -/
def apply_local_decrement (pools : Pools) (farm_id : String)
    (idx qty : Nat) : Pools :=
  pools.map (fun e => if e.1 = farm_id then (e.1, decrementAt e.2 idx qty) else e)

/-- The generator's outcome counters (`Runner.stats`). -/
structure Stats where
  attempted : Nat
  created : Nat
  failed_4xx : Nat
  failed_5xx : Nat
  failed_timeout : Nat
  no_local_candidate : Nat
deriving Repr, DecidableEq

/-- What `self._post_order(payload)` does on one attempt: returns an HTTP
status, or raises `requests.Timeout`, or raises another
`requests.RequestException`. -/
inductive PostResult where
  | http (status : Nat)
  | timeout
  | transportError
deriving Repr, DecidableEq

/-- The environment of one loop iteration: either `builder.build_order`
found no local candidate (payload `None`, no POST is made), or it built a
payload with decrement info `(farm_id, idx, qty)` and the POST had the given
result. -/
inductive IterEnv where
  | noCandidate
  | attempt (farm_id : String) (idx qty : Nat) (post : PostResult)
deriving Repr, DecidableEq

/-- The generator state threaded through the loop: the counters and the
local stock mirror. -/
structure RunnerState where
  stats : Stats
  pools : Pools
deriving Repr, DecidableEq

/-- One iteration of `Runner.loop` (runner.py lines 86-136), QPS sleeps
aside (they only affect timing).  `attempted` is incremented first; with no
candidate the iteration records `no_local_candidate` and continues; otherwise
the POST's exception handlers run (lines 110-119: a timeout bumps
`failed_timeout`, another transport error bumps `failed_5xx`, and in both
cases `status` stays 0), then the classification (lines 122-136): 2xx bumps
`created` and applies the local decrement, 4xx bumps `failed_4xx`, and
`status >= 500 or status == 0` bumps `failed_5xx`. -/
def runnerStep (st : RunnerState) (env : IterEnv) : RunnerState :=
  let stats0 := { st.stats with attempted := st.stats.attempted + 1 }
  match env with
  | .noCandidate =>
    ⟨{ stats0 with no_local_candidate := stats0.no_local_candidate + 1 }, st.pools⟩
  | .attempt farm_id idx qty post =>
    let sp : Nat × Stats :=
      match post with
      | .http s => (s, stats0)
      | .timeout => (0, { stats0 with failed_timeout := stats0.failed_timeout + 1 })
      | .transportError => (0, { stats0 with failed_5xx := stats0.failed_5xx + 1 })
    let status := sp.1
    let stats1 := sp.2
    if 200 ≤ status ∧ status < 300 then
      ⟨{ stats1 with created := stats1.created + 1 },
       apply_local_decrement st.pools farm_id idx qty⟩
    else if 400 ≤ status ∧ status < 500 then
      ⟨{ stats1 with failed_4xx := stats1.failed_4xx + 1 }, st.pools⟩
    else if 500 ≤ status ∨ status = 0 then
      ⟨{ stats1 with failed_5xx := stats1.failed_5xx + 1 }, st.pools⟩
    else ⟨stats1, st.pools⟩

/-- `for _ in range(orders_target): ...`: the loop runs exactly
`orders_target` iterations, one `runnerStep` each, under the iteration
environments `envs`. -/
def runnerLoop (st : RunnerState) (envs : Nat → IterEnv) (target : Nat) :
    RunnerState :=
  (List.range target).foldl (fun s i => runnerStep s (envs i)) st

/-- Number of `POST /orders` calls one iteration makes: none when the
builder found no candidate, exactly one otherwise (even when it raises). -/
def iterPosts : IterEnv → Nat
  | .noCandidate => 0
  | .attempt _ _ _ _ => 1

/-- Total POSTs made across a run of `target` iterations. -/
def totalPosts (envs : Nat → IterEnv) (target : Nat) : Nat :=
  ((List.range target).map (fun i => iterPosts (envs i))).sum

/-! ### Basic facts about the ledger primitives -/

theorem condDecrement_cons_pos (k : String) (p : Product) (rest : Catalog)
    (qty : Nat) (hgte : stockGte p.stock qty = true) :
    condDecrement ((k, p) :: rest) k qty =
      ((k, { p with stock := p.stock.map (fun v => v - qty) }) :: rest, true) := by
  simp [condDecrement, hgte]

theorem condDecrement_cons_neg (k : String) (p : Product) (rest : Catalog)
    (ndc : String) (qty : Nat)
    (h : ¬(k = ndc ∧ stockGte p.stock qty = true)) :
    condDecrement ((k, p) :: rest) ndc qty =
      ((k, p) :: (condDecrement rest ndc qty).1, (condDecrement rest ndc qty).2) := by
  simp only [condDecrement]
  rw [if_neg h]

theorem incStock_cons_pos (k : String) (p : Product) (rest : Catalog)
    (qty : Nat) :
    incStock ((k, p) :: rest) k qty =
      (k, { p with stock := p.stock.map (fun v => v + qty) }) :: rest := by
  simp [incStock]

theorem incStock_cons_neg (k : String) (p : Product) (rest : Catalog)
    (ndc : String) (qty : Nat) (h : ¬ k = ndc) :
    incStock ((k, p) :: rest) ndc qty = (k, p) :: incStock rest ndc qty := by
  simp only [incStock]
  rw [if_neg h]

theorem condDecrement_not_mem (c : Catalog) (ndc : String) (qty : Nat)
    (h : ndc ∉ c.map Prod.fst) : condDecrement c ndc qty = (c, false) := by
  induction c with
  | nil => rfl
  | cons e rest ih =>
    obtain ⟨k, p⟩ := e
    simp only [List.map_cons, List.mem_cons] at h
    push_neg at h
    rw [condDecrement_cons_neg k p rest ndc qty
      (by rintro ⟨hk, -⟩; exact h.1 hk.symm)]
    rw [ih h.2]

theorem condDecrement_false_eq (c : Catalog) (ndc : String) (qty : Nat)
    (h : (condDecrement c ndc qty).2 = false) :
    (condDecrement c ndc qty).1 = c := by
  induction c with
  | nil => rfl
  | cons e rest ih =>
    obtain ⟨k, p⟩ := e
    by_cases hcond : k = ndc ∧ stockGte p.stock qty = true
    · obtain ⟨hk, hg⟩ := hcond
      subst hk
      rw [condDecrement_cons_pos k p rest qty hg] at h
      exact absurd h (by simp)
    · rw [condDecrement_cons_neg k p rest ndc qty hcond] at h ⊢
      rw [ih h]

theorem condDecrement_keys (c : Catalog) (ndc : String) (qty : Nat) :
    ((condDecrement c ndc qty).1).map Prod.fst = c.map Prod.fst := by
  induction c with
  | nil => rfl
  | cons e rest ih =>
    obtain ⟨k, p⟩ := e
    by_cases hcond : k = ndc ∧ stockGte p.stock qty = true
    · obtain ⟨hk, hg⟩ := hcond
      subst hk
      rw [condDecrement_cons_pos k p rest qty hg]
      simp
    · rw [condDecrement_cons_neg k p rest ndc qty hcond]
      simpa using ih

theorem incStock_keys (c : Catalog) (ndc : String) (qty : Nat) :
    (incStock c ndc qty).map Prod.fst = c.map Prod.fst := by
  induction c with
  | nil => rfl
  | cons e rest ih =>
    obtain ⟨k, p⟩ := e
    by_cases hk : k = ndc
    · subst hk
      rw [incStock_cons_pos]
      simp
    · rw [incStock_cons_neg k p rest ndc qty hk]
      simpa using ih

theorem condDecrement_stockOf_some (c : Catalog) (ndc : String) (qty : Nat)
    (s : Int) (hs : stockOf c ndc = some s) (hq : (qty : Int) ≤ s) :
    (condDecrement c ndc qty).2 = true ∧
    stockOf (condDecrement c ndc qty).1 ndc = some (s - qty) := by
  induction c with
  | nil => simp [stockOf, findProd] at hs
  | cons e rest ih =>
    obtain ⟨k, p⟩ := e
    by_cases hk : k = ndc
    · subst hk
      have hp : p.stock = some s := by
        simpa [stockOf, findProd] using hs
      have hgte : stockGte p.stock qty = true := by
        rw [hp]
        simpa [stockGte] using hq
      rw [condDecrement_cons_pos k p rest qty hgte]
      exact ⟨rfl, by simp [stockOf, findProd, hp]⟩
    · have hs' : stockOf rest ndc = some s := by
        simpa [stockOf, findProd, hk] using hs
      obtain ⟨h1, h2⟩ := ih hs'
      rw [condDecrement_cons_neg k p rest ndc qty (by rintro ⟨hk', -⟩; exact hk hk')]
      exact ⟨h1, by simpa [stockOf, findProd, hk] using h2⟩

theorem condDecrement_insufficient (c : Catalog) (ndc : String) (qty : Nat)
    (hnd : (c.map Prod.fst).Nodup)
    (h : ∀ s : Int, stockOf c ndc = some s → s < qty) :
    (condDecrement c ndc qty).1 = c ∧ (condDecrement c ndc qty).2 = false := by
  induction c with
  | nil => exact ⟨rfl, rfl⟩
  | cons e rest ih =>
    obtain ⟨k, p⟩ := e
    simp only [List.map_cons, List.nodup_cons] at hnd
    by_cases hk : k = ndc
    · subst hk
      have hgte : stockGte p.stock qty = false := by
        cases hp : p.stock with
        | none => simp [stockGte]
        | some v =>
          have hv : v < (qty : Int) := by
            apply h
            simp [stockOf, findProd, hp]
          simp only [stockGte]
          simpa using hv
      have hrest : condDecrement rest k qty = (rest, false) :=
        condDecrement_not_mem rest k qty hnd.1
      rw [condDecrement_cons_neg k p rest k qty
        (by rintro ⟨-, hg⟩; rw [hgte] at hg; exact Bool.false_ne_true hg)]
      rw [hrest]
      exact ⟨rfl, rfl⟩
    · have h' : ∀ s : Int, stockOf rest ndc = some s → s < qty := by
        intro s hs
        apply h
        simpa [stockOf, findProd, hk] using hs
      obtain ⟨h1, h2⟩ := ih hnd.2 h'
      rw [condDecrement_cons_neg k p rest ndc qty (by rintro ⟨hk', -⟩; exact hk hk')]
      rw [h1, h2]
      exact ⟨rfl, rfl⟩

theorem condDecrement_nonneg (c : Catalog) (ndc : String) (qty : Nat)
    (h : stocksNonneg c) : stocksNonneg (condDecrement c ndc qty).1 := by
  induction c with
  | nil => exact h
  | cons e rest ih =>
    obtain ⟨k, p⟩ := e
    have hrest : stocksNonneg rest := fun x hx => h x (List.mem_cons_of_mem _ hx)
    by_cases hcond : k = ndc ∧ stockGte p.stock qty = true
    · obtain ⟨hk, hg⟩ := hcond
      subst hk
      rw [condDecrement_cons_pos k p rest qty hg]
      intro x hx
      rcases List.mem_cons.mp hx with h1 | h2
      · subst h1
        cases hp : p.stock with
        | none => simp [hp]
        | some v =>
          have hv : (qty : Int) ≤ v := by
            rw [hp] at hg
            simpa [stockGte] using hg
          simp only [hp]
          simp
          omega
      · exact hrest x h2
    · rw [condDecrement_cons_neg k p rest ndc qty hcond]
      intro x hx
      rcases List.mem_cons.mp hx with h1 | h2
      · subst h1
        exact h _ (List.mem_cons_self _ _)
      · exact ih hrest x h2

theorem incStock_nonneg (c : Catalog) (ndc : String) (qty : Nat)
    (h : stocksNonneg c) : stocksNonneg (incStock c ndc qty) := by
  induction c with
  | nil => exact h
  | cons e rest ih =>
    obtain ⟨k, p⟩ := e
    have hrest : stocksNonneg rest := fun x hx => h x (List.mem_cons_of_mem _ hx)
    by_cases hk : k = ndc
    · subst hk
      rw [incStock_cons_pos]
      intro x hx
      rcases List.mem_cons.mp hx with h1 | h2
      · subst h1
        have hv : 0 ≤ p.stock.getD 0 := h _ (List.mem_cons_self _ _)
        cases hp : p.stock with
        | none => simp [hp]
        | some v =>
          rw [hp] at hv
          simp only [Option.getD_some] at hv
          simp only [hp]
          simp
          omega
      · exact hrest x h2
    · rw [incStock_cons_neg k p rest ndc qty hk]
      intro x hx
      rcases List.mem_cons.mp hx with h1 | h2
      · subst h1
        exact h _ (List.mem_cons_self _ _)
      · exact ih hrest x h2

theorem foldl_incStock_nonneg (l : List (String × Nat)) (c : Catalog)
    (h : stocksNonneg c) :
    stocksNonneg (l.foldl (fun acc e => incStock acc e.1 e.2) c) := by
  induction l generalizing c with
  | nil => exact h
  | cons x xs ih => exact ih _ (incStock_nonneg _ _ _ h)

theorem rollback_nonneg (c : Catalog) (done : List (String × Nat))
    (h : stocksNonneg c) : stocksNonneg (rollback c done) :=
  foldl_incStock_nonneg _ _ h

/-- The ledger state an outcome of the decrement loop leaves behind. -/
def outcomeCatalog : CommitOutcome → Catalog
  | .success cat _ => cat
  | .conflict cat _ _ _ => cat

theorem commitLoop_cons_pos (c : Catalog) (done : List (String × Nat))
    (it : OrderItem) (rest : List OrderItem)
    (h : (condDecrement c it.package_ndc_11 it.quantity).2 = true) :
    commitLoop c done (it :: rest) =
      commitLoop (condDecrement c it.package_ndc_11 it.quantity).1
        (done ++ [(it.package_ndc_11, it.quantity)]) rest := by
  simp only [commitLoop]
  rw [if_pos h]

theorem commitLoop_cons_neg (c : Catalog) (done : List (String × Nat))
    (it : OrderItem) (rest : List OrderItem)
    (h : (condDecrement c it.package_ndc_11 it.quantity).2 = false) :
    commitLoop c done (it :: rest) =
      .conflict (rollback c done) it.package_ndc_11 it.quantity
        (max (rawAvailable c it.package_ndc_11) 0) := by
  simp only [commitLoop]
  rw [if_neg (by simp [h])]

theorem commitLoop_nonneg (items : List OrderItem) (c : Catalog)
    (done : List (String × Nat)) (h : stocksNonneg c) :
    stocksNonneg (outcomeCatalog (commitLoop c done items)) := by
  induction items generalizing c done with
  | nil => exact h
  | cons it rest ih =>
    by_cases hr : (condDecrement c it.package_ndc_11 it.quantity).2 = true
    · rw [commitLoop_cons_pos c done it rest hr]
      exact ih _ _ (condDecrement_nonneg c _ _ h)
    · rw [commitLoop_cons_neg c done it rest (by simpa using hr)]
      exact rollback_nonneg c done h

theorem incStock_condDecrement (c : Catalog) (ndc : String) (qty : Nat)
    (hnd : (c.map Prod.fst).Nodup)
    (h : (condDecrement c ndc qty).2 = true) :
    incStock (condDecrement c ndc qty).1 ndc qty = c := by
  induction c with
  | nil => simp [condDecrement] at h
  | cons e rest ih =>
    obtain ⟨k, p⟩ := e
    simp only [List.map_cons, List.nodup_cons] at hnd
    by_cases hcond : k = ndc ∧ stockGte p.stock qty = true
    · obtain ⟨hk, hg⟩ := hcond
      subst hk
      rw [condDecrement_cons_pos k p rest qty hg]
      rw [incStock_cons_pos]
      cases hp : p.stock with
      | none =>
        rw [hp] at hg
        simp [stockGte] at hg
      | some v =>
        obtain ⟨pr, d, g, st⟩ := p
        simp only at hp
        subst hp
        have hv : v - (qty : Int) + qty = v := by ring
        simp [hv]
    · by_cases hk : k = ndc
      · subst hk
        have hrest : condDecrement rest k qty = (rest, false) :=
          condDecrement_not_mem rest k qty hnd.1
        rw [condDecrement_cons_neg k p rest k qty hcond] at h
        rw [hrest] at h
        exact absurd h (by simp)
      · rw [condDecrement_cons_neg k p rest ndc qty hcond] at h ⊢
        rw [incStock_cons_neg k p _ ndc qty hk]
        rw [ih hnd.2 h]

theorem commitLoop_restores (items : List OrderItem) (c c0 : Catalog)
    (done : List (String × Nat))
    (hnd : (c.map Prod.fst).Nodup) (hroll : rollback c done = c0) :
    (∀ c2 d2, commitLoop c done items = .success c2 d2 → rollback c2 d2 = c0) ∧
    (∀ c2 n q a, commitLoop c done items = .conflict c2 n q a → c2 = c0) := by
  induction items generalizing c done with
  | nil =>
    constructor
    · intro c2 d2 hh
      simp only [commitLoop] at hh
      injection hh with h1 h2
      subst h1
      subst h2
      exact hroll
    · intro c2 n q a hh
      simp [commitLoop] at hh
  | cons it rest ih =>
    by_cases hr : (condDecrement c it.package_ndc_11 it.quantity).2 = true
    · rw [commitLoop_cons_pos c done it rest hr]
      have hnd' : (((condDecrement c it.package_ndc_11 it.quantity).1).map
          Prod.fst).Nodup := by
        rw [condDecrement_keys]
        exact hnd
      have hroll' : rollback (condDecrement c it.package_ndc_11 it.quantity).1
          (done ++ [(it.package_ndc_11, it.quantity)]) = c0 := by
        unfold rollback
        rw [List.reverse_append, List.reverse_singleton, List.singleton_append,
          List.foldl_cons]
        rw [incStock_condDecrement c _ _ hnd hr]
        exact hroll
      exact ih _ _ hnd' hroll'
    · rw [commitLoop_cons_neg c done it rest (by simpa using hr)]
      constructor
      · intro c2 d2 hh
        simp at hh
      · intro c2 n q a hh
        injection hh with h1 h2 h3 h4
        rw [← h1]
        exact hroll

/-- `applyPrefix` unfolds one step at a time. -/
theorem applyPrefix_zero (c : Catalog) (items : List OrderItem) :
    applyPrefix c items 0 = c := rfl

theorem applyPrefix_succ (c : Catalog) (it : OrderItem)
    (rest : List OrderItem) (k : Nat) :
    applyPrefix c (it :: rest) (k + 1) =
      applyPrefix (condDecrement c it.package_ndc_11 it.quantity).1 rest k := by
  simp [applyPrefix]

theorem commitLoop_conflict_index (items : List OrderItem) (c : Catalog)
    (done : List (String × Nat)) (c2 : Catalog) (ndc : String) (q : Nat)
    (a : Int) (hh : commitLoop c done items = .conflict c2 ndc q a) :
    ∃ k, k < items.length ∧ items.get? k = some ⟨ndc, q⟩ ∧
      (∀ j, j < k → ∃ itj, items.get? j = some itj ∧
        (condDecrement (applyPrefix c items j) itj.package_ndc_11
          itj.quantity).2 = true) ∧
      (condDecrement (applyPrefix c items k) ndc q).2 = false ∧
      a = max (rawAvailable (applyPrefix c items k) ndc) 0 := by
  induction items generalizing c done with
  | nil => simp [commitLoop] at hh
  | cons it rest ih =>
    by_cases hr : (condDecrement c it.package_ndc_11 it.quantity).2 = true
    · rw [commitLoop_cons_pos c done it rest hr] at hh
      obtain ⟨k, hk, hget, hprev, hfail, ha⟩ := ih _ _ hh
      refine ⟨k + 1, by simpa using Nat.succ_lt_succ hk, by simpa using hget,
        ?_, ?_, ?_⟩
      · intro j hj
        cases j with
        | zero =>
          exact ⟨it, by simp, by rw [applyPrefix_zero]; exact hr⟩
        | succ j' =>
          obtain ⟨itj, hg, hc⟩ := hprev j' (Nat.lt_of_succ_lt_succ hj)
          exact ⟨itj, by simpa using hg, by rw [applyPrefix_succ]; exact hc⟩
      · rw [applyPrefix_succ]
        exact hfail
      · rw [applyPrefix_succ]
        exact ha
    · rw [commitLoop_cons_neg c done it rest (by simpa using hr)] at hh
      injection hh with h1 h2 h3 h4
      subst h2
      subst h3
      refine ⟨0, by simp, by simp, by intro j hj; omega, ?_, ?_⟩
      · rw [applyPrefix_zero]
        simpa using hr
      · rw [applyPrefix_zero]
        exact h4.symm

/-! ### Shape of a whole `create_order` run -/

/-- The order document built in steps 3-5 on the success path (the pricing
values from `priceLines` plus the discount and total of lines 210-213). -/
def builtDoc (c : Catalog) (payload : OrderCreate) : OrderDoc :=
  let pr := priceLines c payload.items
  let discount_amount := round2 (pr.2 * payload.discount_pct / 100)
  ⟨pr.1, pr.2, payload.discount_pct, discount_amount,
   round2 (pr.2 - discount_amount), payload.external_order_id, payload.client_id⟩

/-- Exhaustive case analysis of one `create_order` run: the 422 path (empty
order or bad code), the 404 path (codes missing from the catalog, none of
the ledger touched in either), and the two ends of the decrement loop
(conflict, or success followed by the persist-or-rollback split). -/
theorem create_order_cases (c : Catalog) (persistOk : Bool)
    (payload : OrderCreate) :
    ((payload.items = [] ∨
        ∃ it ∈ payload.items, isValidNDC it.package_ndc_11 = false) ∧
      ∃ msg, create_order c persistOk payload = ⟨c, none, .validationError msg⟩) ∨
    ((payload.items ≠ [] ∧
        (∀ it ∈ payload.items, isValidNDC it.package_ndc_11 = true) ∧
        (payload.items.map OrderItem.package_ndc_11).filter
          (fun n => (findProd c n).isNone) ≠ []) ∧
      create_order c persistOk payload = ⟨c, none,
        .notFound ((payload.items.map OrderItem.package_ndc_11).filter
          (fun n => (findProd c n).isNone))⟩) ∨
    ((payload.items ≠ [] ∧
        (∀ it ∈ payload.items, isValidNDC it.package_ndc_11 = true) ∧
        (∀ it ∈ payload.items, (findProd c it.package_ndc_11).isSome)) ∧
      ((∃ c2 ndc req avail,
          commitLoop c [] payload.items = .conflict c2 ndc req avail ∧
          create_order c persistOk payload =
            ⟨c2, none, .stockConflict ndc req avail⟩) ∨
       (∃ c2 done, commitLoop c [] payload.items = .success c2 done ∧
          ((persistOk = true ∧ create_order c persistOk payload =
              ⟨c2, some (builtDoc c payload), .ok (builtDoc c payload)⟩) ∨
           (persistOk = false ∧ create_order c persistOk payload =
              ⟨rollback c2 done, none, .serverError⟩))))) := by
  by_cases he : payload.items.isEmpty
  · refine Or.inl ⟨Or.inl (List.isEmpty_iff.mp he), "Debe incluir al menos un item", ?_⟩
    unfold create_order
    rw [if_pos he]
  · cases hf : payload.items.find? (fun it => ! isValidNDC it.package_ndc_11) with
    | some it =>
      refine Or.inl ⟨Or.inr ⟨it, List.mem_of_find?_eq_some hf,
        by simpa using List.find?_some hf⟩, "NDC invalido: " ++ it.package_ndc_11, ?_⟩
      unfold create_order
      rw [if_neg he, hf]
    | none =>
      have hne : payload.items ≠ [] := by
        intro hx
        exact he (by simp [hx])
      have hvalid : ∀ it ∈ payload.items, isValidNDC it.package_ndc_11 = true := by
        intro it hit
        have := List.find?_eq_none.mp hf it hit
        simpa using this
      by_cases hm : ((payload.items.map OrderItem.package_ndc_11).filter
          (fun n => (findProd c n).isNone)).isEmpty
      · have hfound : ∀ it ∈ payload.items, (findProd c it.package_ndc_11).isSome := by
          intro it hit
          have hmem : it.package_ndc_11 ∈ payload.items.map OrderItem.package_ndc_11 :=
            List.mem_map_of_mem _ hit
          have hnil := List.isEmpty_iff.mp hm
          have := List.filter_eq_nil_iff.mp hnil _ hmem
          simpa [Option.isNone_iff_eq_none, Option.isSome_iff_ne_none] using this
        refine Or.inr (Or.inr ⟨⟨hne, hvalid, hfound⟩, ?_⟩)
        cases hcl : commitLoop c [] payload.items with
        | conflict c2 ndc req avail =>
          refine Or.inl ⟨c2, ndc, req, avail, rfl, ?_⟩
          unfold create_order
          rw [if_neg he, hf, if_pos hm, hcl]
        | success c2 done =>
          refine Or.inr ⟨c2, done, rfl, ?_⟩
          cases persistOk with
          | true =>
            refine Or.inl ⟨rfl, ?_⟩
            unfold create_order
            rw [if_neg he, hf, if_pos hm, hcl]
            rfl
          | false =>
            refine Or.inr ⟨rfl, ?_⟩
            unfold create_order
            rw [if_neg he, hf, if_pos hm, hcl]
            rfl
      · refine Or.inr (Or.inl ⟨⟨hne, hvalid, by simpa [List.isEmpty_iff] using hm⟩, ?_⟩)
        unfold create_order
        rw [if_neg he, hf, if_neg hm]

theorem create_order_nonneg (c : Catalog) (persistOk : Bool)
    (payload : OrderCreate) (h : stocksNonneg c) :
    stocksNonneg (create_order c persistOk payload).catalog := by
  rcases create_order_cases c persistOk payload with
    ⟨-, msg, heq⟩ | ⟨-, heq⟩ | ⟨-, hbr⟩
  · rw [heq]
    exact h
  · rw [heq]
    exact h
  · rcases hbr with ⟨c2, ndc, req, avail, hcl, heq⟩ | ⟨c2, done, hcl, hbr2⟩
    · rw [heq]
      have := commitLoop_nonneg payload.items c [] h
      rw [hcl] at this
      exact this
    · have hc2 : stocksNonneg c2 := by
        have := commitLoop_nonneg payload.items c [] h
        rw [hcl] at this
        exact this
      rcases hbr2 with ⟨-, heq⟩ | ⟨-, heq⟩
      · rw [heq]
        exact hc2
      · rw [heq]
        exact rollback_nonneg _ _ hc2

/-! ### Shape of the pricing pass -/

/-- What the pricing loop produces for one line: a pure function of the line
and the step-1 catalog read. -/
theorem priceLinesAux_fst (c : Catalog) (items : List OrderItem)
    (acc : List OrderItemOut) (s : ℚ) :
    (priceLinesAux c acc s items).1 = acc ++ items.map (priceLine c) := by
  induction items generalizing acc s with
  | nil => simp [priceLinesAux]
  | cons it rest ih =>
    simp only [priceLinesAux, ih, List.map_cons]
    simp

theorem priceLinesAux_snd (c : Catalog) (items : List OrderItem)
    (acc : List OrderItemOut) (s : ℚ) :
    (priceLinesAux c acc s items).2 =
      (items.map (fun it => (priceLine c it).line_total)).foldl
        (fun a lt => round2 (a + lt)) s := by
  induction items generalizing acc s with
  | nil => rfl
  | cons it rest ih =>
    simp only [priceLinesAux, ih, List.map_cons, List.foldl_cons]

theorem priceLine_unit_price (c : Catalog) (it : OrderItem) :
    (priceLine c it).unit_price =
      ((findProd c it.package_ndc_11).bind (fun p => p.price)).getD 0 := by
  cases h : findProd c it.package_ndc_11 <;> simp [priceLine, h]

/-! ### Concrete fixtures used by the witnesses -/

/-- A 3-product ledger: stocks 5, 1 and 7 (fields: price, descripcion,
generic_name, stock). -/
def c2cat : Catalog :=
  [("00000000001", ⟨some 10, none, none, some 5⟩),
   ("00000000002", ⟨some 2, none, none, some 1⟩),
   ("00000000003", ⟨some 3, none, none, some 7⟩)]

/-- A 3-line order whose second line requests 4 against stock 1. -/
def c2pay : OrderCreate :=
  ⟨[⟨"00000000001", 2⟩, ⟨"00000000002", 4⟩, ⟨"00000000003", 1⟩], none, none, 0⟩

/-- An order naming a code absent from `c2cat`. -/
def c4pay : OrderCreate :=
  ⟨[⟨"00000000009", 1⟩], none, none, 0⟩

/-- A 2-line order that fits the stocks of `c2cat`. -/
def c5pay : OrderCreate :=
  ⟨[⟨"00000000001", 2⟩, ⟨"00000000003", 3⟩], none, none, 0⟩

/-- A one-product ledger whose stock field is null. -/
def c10cat : Catalog :=
  [("00000000001", ⟨none, none, none, none⟩)]

/-- A 1-line order against `c10cat`. -/
def c10pay : OrderCreate :=
  ⟨[⟨"00000000001", 1⟩], none, none, 0⟩

/-! ## The claims -/

/-- C1: In the commit engine, every single conditional decrement subtracts
the requested quantity from the targeted product only when its current stock
is at least that quantity and leaves the ledger unchanged otherwise; hence a
ledger whose stocks start non-negative stays non-negative after every engine
operation — a conditional decrement, a rollback increment, and a whole
`create_order` run. -/
theorem C1_conditional_decrement_keeps_stock_nonneg
    (c : Catalog) (ndc : String) (qty : Nat) (persistOk : Bool)
    (payload : OrderCreate) (hnd : (c.map Prod.fst).Nodup) :
    (∀ s : Int, stockOf c ndc = some s → (qty : Int) ≤ s →
      (condDecrement c ndc qty).2 = true ∧
      stockOf (condDecrement c ndc qty).1 ndc = some (s - qty)) ∧
    ((∀ s : Int, stockOf c ndc = some s → s < (qty : Int)) →
      (condDecrement c ndc qty).1 = c ∧ (condDecrement c ndc qty).2 = false) ∧
    (stocksNonneg c → stocksNonneg (condDecrement c ndc qty).1) ∧
    (stocksNonneg c → stocksNonneg (incStock c ndc qty)) ∧
    (stocksNonneg c → stocksNonneg (create_order c persistOk payload).catalog) :=
  ⟨fun s hs hq => condDecrement_stockOf_some c ndc qty s hs hq,
   fun h => condDecrement_insufficient c ndc qty hnd h,
   fun h => condDecrement_nonneg c ndc qty h,
   fun h => incStock_nonneg c ndc qty h,
   fun h => create_order_nonneg c persistOk payload h⟩

/-- Witness for C1 at a one-product ledger with stock 5 and a decrement of 3. -/
theorem C1_conditional_decrement_keeps_stock_nonneg_witness :
    (([("00000000001", (⟨none, none, none, some 5⟩ : Product))] : Catalog).map
      Prod.fst).Nodup ∧
    stockOf [("00000000001", ⟨none, none, none, some 5⟩)] "00000000001" = some 5 ∧
    stocksNonneg [("00000000001", ⟨none, none, none, some 5⟩)] ∧
    ((condDecrement [("00000000001", ⟨none, none, none, some 5⟩)]
        "00000000001" 3).2 = true ∧
      stockOf (condDecrement [("00000000001", ⟨none, none, none, some 5⟩)]
        "00000000001" 3).1 "00000000001" = some (5 - 3)) ∧
    stocksNonneg (create_order [("00000000001", ⟨none, none, none, some 5⟩)] true
      ⟨[⟨"00000000001", 3⟩], none, none, 0⟩).catalog :=
  ⟨by decide, by decide, by decide,
   (C1_conditional_decrement_keeps_stock_nonneg _ "00000000001" 3 true
      ⟨[⟨"00000000001", 3⟩], none, none, 0⟩ (by decide)).1 5 (by decide) (by decide),
   (C1_conditional_decrement_keeps_stock_nonneg _ "00000000001" 3 true
      ⟨[⟨"00000000001", 3⟩], none, none, 0⟩ (by decide)).2.2.2.2 (by decide)⟩

/-- C2: When `create_order` answers a 409 stock conflict, every decrement
already applied to earlier lines has been undone (the ledger is back to its
exact pre-order state, so in a 3-line order failing at line 2 the stock of
line 1 is restored), no order document is persisted, and the 409 payload
carries the short line's code, its requested quantity, and the clamped stock
read taken at the instant of the conflict, i.e. on the ledger after exactly
the earlier lines' decrements. -/
theorem C2_stock_conflict_rolls_back_and_persists_nothing
    (c : Catalog) (persistOk : Bool) (payload : OrderCreate)
    (ndc : String) (req : Nat) (avail : Int)
    (hnd : (c.map Prod.fst).Nodup)
    (h : (create_order c persistOk payload).result = .stockConflict ndc req avail) :
    (create_order c persistOk payload).catalog = c ∧
    (create_order c persistOk payload).persisted = none ∧
    ∃ k, k < payload.items.length ∧
      payload.items.get? k = some ⟨ndc, req⟩ ∧
      (∀ j, j < k → ∃ itj, payload.items.get? j = some itj ∧
        (condDecrement (applyPrefix c payload.items j) itj.package_ndc_11
          itj.quantity).2 = true) ∧
      (condDecrement (applyPrefix c payload.items k) ndc req).2 = false ∧
      avail = max (rawAvailable (applyPrefix c payload.items k) ndc) 0 := by
  rcases create_order_cases c persistOk payload with
    ⟨-, msg, heq⟩ | ⟨-, heq⟩ | ⟨-, hbr⟩
  · rw [heq] at h
    simp at h
  · rw [heq] at h
    simp at h
  · rcases hbr with ⟨c2, n2, q2, a2, hcl, heq⟩ | ⟨c2, done, hcl, hbr2⟩
    · rw [heq] at h
      have h2 : OrderResult.stockConflict n2 q2 a2 =
          OrderResult.stockConflict ndc req avail := h
      injection h2 with e1 e2 e3
      subst e1
      subst e2
      subst e3
      rw [heq]
      refine ⟨?_, rfl, ?_⟩
      · exact (commitLoop_restores payload.items c c [] hnd rfl).2 _ _ _ _ hcl
      · exact commitLoop_conflict_index payload.items c [] c2 n2 q2 a2 hcl
    · rcases hbr2 with ⟨-, heq⟩ | ⟨-, heq⟩ <;> rw [heq] at h <;> simp at h

/-- Witness for C2: a 3-line order over a 3-product ledger fails on line 2
(stock 1 < requested 4); line 1's decrement of 2 is rolled back. -/
theorem C2_stock_conflict_rolls_back_and_persists_nothing_witness :
    (create_order c2cat true c2pay).result = .stockConflict "00000000002" 4 1 ∧
    ((create_order c2cat true c2pay).catalog = c2cat ∧
     (create_order c2cat true c2pay).persisted = none ∧
     ∃ k, k < c2pay.items.length ∧
       c2pay.items.get? k = some ⟨"00000000002", 4⟩ ∧
       (∀ j, j < k → ∃ itj, c2pay.items.get? j = some itj ∧
         (condDecrement (applyPrefix c2cat c2pay.items j) itj.package_ndc_11
           itj.quantity).2 = true) ∧
       (condDecrement (applyPrefix c2cat c2pay.items k) "00000000002" 4).2 = false ∧
       (1 : Int) = max (rawAvailable (applyPrefix c2cat c2pay.items k) "00000000002") 0) :=
  ⟨rfl, C2_stock_conflict_rolls_back_and_persists_nothing c2cat true c2pay
    "00000000002" 4 1 (by decide) rfl⟩

/-- C4: An empty order, a malformed product code, or a code absent from the
catalog makes `create_order` fail — with the 422 validation error or with a
404 listing exactly the missing codes — before performing any stock
decrement: the ledger comes back unchanged and nothing is persisted. -/
theorem C4_validation_failures_leave_ledger_untouched
    (c : Catalog) (persistOk : Bool) (payload : OrderCreate)
    (hbad : payload.items = [] ∨
      (∃ it ∈ payload.items, isValidNDC it.package_ndc_11 = false) ∨
      (∃ it ∈ payload.items, findProd c it.package_ndc_11 = none)) :
    ((∃ msg, (create_order c persistOk payload).result = .validationError msg) ∨
      (create_order c persistOk payload).result =
        .notFound ((payload.items.map OrderItem.package_ndc_11).filter
          (fun n => (findProd c n).isNone))) ∧
    (create_order c persistOk payload).catalog = c ∧
    (create_order c persistOk payload).persisted = none := by
  rcases create_order_cases c persistOk payload with
    ⟨-, msg, heq⟩ | ⟨-, heq⟩ | ⟨⟨hne, hvalid, hfound⟩, -⟩
  · rw [heq]
    exact ⟨Or.inl ⟨msg, rfl⟩, rfl, rfl⟩
  · rw [heq]
    exact ⟨Or.inr rfl, rfl, rfl⟩
  · exfalso
    rcases hbad with h | ⟨it, hit, hbadndc⟩ | ⟨it, hit, hmiss⟩
    · exact hne h
    · rw [hvalid it hit] at hbadndc
      simp at hbadndc
    · have hsome := hfound it hit
      rw [hmiss] at hsome
      simp at hsome

/-- Witness for C4: an order naming a code the catalog does not carry gets a
404 listing it and leaves the ledger exactly as it was. -/
theorem C4_validation_failures_leave_ledger_untouched_witness :
    ((c4pay.items = [] ∨
      (∃ it ∈ c4pay.items, isValidNDC it.package_ndc_11 = false) ∨
      (∃ it ∈ c4pay.items, findProd c2cat it.package_ndc_11 = none)) ∧
     (((∃ msg, (create_order c2cat true c4pay).result = .validationError msg) ∨
        (create_order c2cat true c4pay).result =
          .notFound ((c4pay.items.map OrderItem.package_ndc_11).filter
            (fun n => (findProd c2cat n).isNone))) ∧
      (create_order c2cat true c4pay).catalog = c2cat ∧
      (create_order c2cat true c4pay).persisted = none)) :=
  ⟨by decide, C4_validation_failures_leave_ledger_untouched c2cat true c4pay (by decide)⟩

/-- C5: If every line's decrement succeeds (witnessed by the order committing
under working persistence) but the order-document insert fails, the generic
exception handler rolls every decrement back in reverse order — the ledger
returns to its exact pre-order state — nothing is persisted, and the answer
is the generic 500 server error. -/
theorem C5_persist_failure_full_rollback
    (c : Catalog) (payload : OrderCreate) (doc : OrderDoc)
    (hnd : (c.map Prod.fst).Nodup)
    (hok : (create_order c true payload).result = .ok doc) :
    (create_order c false payload).result = .serverError ∧
    (create_order c false payload).catalog = c ∧
    (create_order c false payload).persisted = none := by
  obtain ⟨c2, done, hcl⟩ :
      ∃ c2 done, commitLoop c [] payload.items = .success c2 done := by
    rcases create_order_cases c true payload with
      ⟨-, msg, heq⟩ | ⟨-, heq⟩ | ⟨-, hbr⟩
    · rw [heq] at hok
      simp at hok
    · rw [heq] at hok
      simp at hok
    · rcases hbr with ⟨d2, n2, q2, a2, hcl, heq⟩ | ⟨d2, dn, hcl, -⟩
      · rw [heq] at hok
        simp at hok
      · exact ⟨d2, dn, hcl⟩
  rcases create_order_cases c false payload with
    ⟨hbad, msg, heq⟩ | ⟨⟨-, -, hmiss⟩, heq⟩ | ⟨hpre, hbr⟩
  · exfalso
    rcases create_order_cases c true payload with
      ⟨-, m2, heq2⟩ | ⟨-, heq2⟩ | ⟨⟨hne, hvalid, -⟩, -⟩
    · rw [heq2] at hok
      simp at hok
    · rw [heq2] at hok
      simp at hok
    · rcases hbad with h | ⟨it, hit, hbadndc⟩
      · exact hne h
      · rw [hvalid it hit] at hbadndc
        simp at hbadndc
  · exfalso
    rcases create_order_cases c true payload with
      ⟨-, m2, heq2⟩ | ⟨-, heq2⟩ | ⟨⟨-, -, hfound⟩, -⟩
    · rw [heq2] at hok
      simp at hok
    · rw [heq2] at hok
      simp at hok
    · refine hmiss (List.filter_eq_nil_iff.mpr ?_)
      intro n hn
      obtain ⟨it, hit, hn2⟩ := List.mem_map.mp hn
      subst hn2
      have := hfound it hit
      simp [Option.isNone_iff_eq_none, Option.isSome_iff_ne_none] at this ⊢
      exact this
  · rcases hbr with ⟨d2, n2, q2, a2, hcl2, heq⟩ | ⟨d2, dn, hcl2, hbr2⟩
    · rw [hcl] at hcl2
      simp at hcl2
    · rw [hcl] at hcl2
      injection hcl2 with e1 e2
      subst e1
      subst e2
      rcases hbr2 with ⟨habs, -⟩ | ⟨-, heq⟩
      · simp at habs
      · rw [heq]
        refine ⟨rfl, ?_, rfl⟩
        exact (commitLoop_restores payload.items c c [] hnd rfl).1 _ _ hcl

/-- Witness for C5: a 2-line order that commits under working persistence is
fully rolled back and answered 500 when the insert fails. -/
theorem C5_persist_failure_full_rollback_witness :
    (create_order c2cat true c5pay).result = .ok (builtDoc c2cat c5pay) ∧
    ((create_order c2cat false c5pay).result = .serverError ∧
     (create_order c2cat false c5pay).catalog = c2cat ∧
     (create_order c2cat false c5pay).persisted = none) :=
  ⟨rfl, C5_persist_failure_full_rollback c2cat c5pay (builtDoc c2cat c5pay)
    (by decide) rfl⟩

/-- C10: The available quantity a 409 stock-conflict reports is never
negative: it is the clamped `max(available, 0)` of the raw stock read taken
on the ledger as it stood after the earlier lines' decrements, and that raw
read defaults to 0 whenever the product document is missing or its stock
field is null at that instant. -/
theorem C10_conflict_available_clamped_nonneg
    (c : Catalog) (persistOk : Bool) (payload : OrderCreate)
    (ndc : String) (req : Nat) (avail : Int)
    (h : (create_order c persistOk payload).result = .stockConflict ndc req avail) :
    0 ≤ avail ∧
    ∃ k, k < payload.items.length ∧
      payload.items.get? k = some ⟨ndc, req⟩ ∧
      avail = max (rawAvailable (applyPrefix c payload.items k) ndc) 0 ∧
      (stockOf (applyPrefix c payload.items k) ndc = none → avail = 0) := by
  rcases create_order_cases c persistOk payload with
    ⟨-, msg, heq⟩ | ⟨-, heq⟩ | ⟨-, hbr⟩
  · rw [heq] at h
    simp at h
  · rw [heq] at h
    simp at h
  · rcases hbr with ⟨c2, n2, q2, a2, hcl, heq⟩ | ⟨c2, done, hcl, hbr2⟩
    · rw [heq] at h
      have h2 : OrderResult.stockConflict n2 q2 a2 =
          OrderResult.stockConflict ndc req avail := h
      injection h2 with e1 e2 e3
      subst e1
      subst e2
      subst e3
      obtain ⟨k, hk, hget, -, -, ha⟩ :=
        commitLoop_conflict_index payload.items c [] c2 n2 q2 a2 hcl
      refine ⟨by rw [ha]; exact le_max_right _ _, k, hk, hget, ha, ?_⟩
      intro hnone
      rw [ha]
      have : rawAvailable (applyPrefix c payload.items k) n2 =
          (stockOf (applyPrefix c payload.items k) n2).getD 0 := rfl
      rw [this, hnone]
      simp
    · rcases hbr2 with ⟨-, heq⟩ | ⟨-, heq⟩ <;> rw [heq] at h <;> simp at h

/-- Witness for C10: a product whose stock field is null conflicts at once
and the 409 reports available = 0. -/
theorem C10_conflict_available_clamped_nonneg_witness :
    (create_order c10cat true c10pay).result = .stockConflict "00000000001" 1 0 ∧
    (0 ≤ (0 : Int) ∧
     ∃ k, k < c10pay.items.length ∧
       c10pay.items.get? k = some ⟨"00000000001", 1⟩ ∧
       (0 : Int) = max (rawAvailable (applyPrefix c10cat c10pay.items k) "00000000001") 0 ∧
       (stockOf (applyPrefix c10cat c10pay.items k) "00000000001" = none →
         (0 : Int) = 0)) :=
  ⟨rfl, C10_conflict_available_clamped_nonneg c10cat true c10pay
    "00000000001" 1 0 rfl⟩

/-- C3: Every successfully committed order prices its lines from the single
step-1 catalog read: each line total is `round2(unit_price * quantity)`, the
subtotal is accumulated incrementally as `round2(subtotal + line_total)` line
by line, the discount is `round2(subtotal * discountPct / 100)`, and the
total is `round2(subtotal - discount)`. -/
theorem C3_pricing_rounds_incrementally
    (c : Catalog) (persistOk : Bool) (payload : OrderCreate) (doc : OrderDoc)
    (h : (create_order c persistOk payload).result = .ok doc) :
    doc.items.length = payload.items.length ∧
    (∀ i it, payload.items.get? i = some it →
      ∃ o, doc.items.get? i = some o ∧
        o.package_ndc_11 = it.package_ndc_11 ∧
        o.quantity = it.quantity ∧
        o.unit_price = ((findProd c it.package_ndc_11).bind
          (fun p => p.price)).getD 0 ∧
        o.line_total = round2 (o.unit_price * (it.quantity : ℚ))) ∧
    doc.subtotal = (doc.items.map OrderItemOut.line_total).foldl
      (fun a lt => round2 (a + lt)) 0 ∧
    doc.discount_pct = payload.discount_pct ∧
    doc.discount = round2 (doc.subtotal * payload.discount_pct / 100) ∧
    doc.total = round2 (doc.subtotal - doc.discount) := by
  have hdoc : doc = builtDoc c payload := by
    rcases create_order_cases c persistOk payload with
      ⟨-, msg, heq⟩ | ⟨-, heq⟩ | ⟨-, hbr⟩
    · rw [heq] at h
      simp at h
    · rw [heq] at h
      simp at h
    · rcases hbr with ⟨c2, n2, q2, a2, hcl, heq⟩ | ⟨c2, done, hcl, hbr2⟩
      · rw [heq] at h
        simp at h
      · rcases hbr2 with ⟨-, heq⟩ | ⟨-, heq⟩ <;> rw [heq] at h
        · have h2 : OrderResult.ok (builtDoc c payload) = OrderResult.ok doc := h
          injection h2 with e
          exact e.symm
        · simp at h
  subst hdoc
  have hfst : (builtDoc c payload).items = payload.items.map (priceLine c) := by
    show (priceLines c payload.items).1 = _
    rw [priceLines, priceLinesAux_fst]
    simp
  refine ⟨by rw [hfst]; simp, ?_, ?_, rfl, rfl, rfl⟩
  · intro i it hget
    refine ⟨priceLine c it, ?_, rfl, rfl, priceLine_unit_price c it, rfl⟩
    rw [hfst, List.get?_eq_getElem?, List.getElem?_map, ← List.get?_eq_getElem?,
      hget]
    rfl
  · show (priceLines c payload.items).2 = _
    rw [priceLines, priceLinesAux_snd, hfst, List.map_map]
    rfl

/-- Witness for C3: a 2-line priced order against the 3-product ledger. -/
theorem C3_pricing_rounds_incrementally_witness :
    (create_order c2cat true c5pay).result = .ok (builtDoc c2cat c5pay) ∧
    ((builtDoc c2cat c5pay).items.length = c5pay.items.length ∧
     (∀ i it, c5pay.items.get? i = some it →
       ∃ o, (builtDoc c2cat c5pay).items.get? i = some o ∧
         o.package_ndc_11 = it.package_ndc_11 ∧
         o.quantity = it.quantity ∧
         o.unit_price = ((findProd c2cat it.package_ndc_11).bind
           (fun p => p.price)).getD 0 ∧
         o.line_total = round2 (o.unit_price * (it.quantity : ℚ))) ∧
     (builtDoc c2cat c5pay).subtotal =
       ((builtDoc c2cat c5pay).items.map OrderItemOut.line_total).foldl
         (fun a lt => round2 (a + lt)) 0 ∧
     (builtDoc c2cat c5pay).discount_pct = c5pay.discount_pct ∧
     (builtDoc c2cat c5pay).discount =
       round2 ((builtDoc c2cat c5pay).subtotal * c5pay.discount_pct / 100) ∧
     (builtDoc c2cat c5pay).total =
       round2 ((builtDoc c2cat c5pay).subtotal - (builtDoc c2cat c5pay).discount)) :=
  ⟨rfl, C3_pricing_rounds_incrementally c2cat true c5pay (builtDoc c2cat c5pay) rfl⟩

/-! ### Facts about the catalog aggregation -/

theorem tagItem_isSome (fid : String) (it : CatalogItem) :
    (tagItem fid it).id_farmacia.isSome := by
  cases h : it.id_farmacia <;> simp [tagItem, h]

theorem tagItem_stock (fid : String) (it : CatalogItem) :
    (tagItem fid it).stock = it.stock := by
  cases h : it.id_farmacia <;> simp [tagItem, h]

theorem tagItem_payload (fid : String) (it : CatalogItem) :
    (tagItem fid it).payload = it.payload := by
  cases h : it.id_farmacia <;> simp [tagItem, h]

theorem tagItem_of_none (fid : String) (it : CatalogItem)
    (h : it.id_farmacia = none) :
    tagItem fid it = { it with id_farmacia := some fid } := by
  simp [tagItem, h]

theorem tagItem_of_some (fid : String) (it : CatalogItem) (v : String)
    (h : it.id_farmacia = some v) : tagItem fid it = it := by
  simp [tagItem, h]

theorem mem_fetch_catalog (fid : String) (resp : Option (List CatalogItem))
    (stk : Bool) (x : CatalogItem) (hx : x ∈ fetch_catalog fid resp stk) :
    ∃ its, resp = some its ∧ ∃ src ∈ its, x = tagItem fid src ∧
      (stk = true → 0 < x.stock.getD 0) := by
  cases resp with
  | none => simp [fetch_catalog] at hx
  | some its =>
    refine ⟨its, rfl, ?_⟩
    simp only [fetch_catalog] at hx
    cases stk with
    | false =>
      simp only [Bool.false_eq_true, if_false] at hx
      obtain ⟨src, hs, he⟩ := List.mem_map.mp hx
      exact ⟨src, hs, he.symm, by simp⟩
    | true =>
      simp only [if_true] at hx
      obtain ⟨hmem, hpos⟩ := List.mem_filter.mp hx
      obtain ⟨src, hs, he⟩ := List.mem_map.mp hmem
      exact ⟨src, hs, he.symm, fun _ => by simpa using hpos⟩

theorem consulted_fetch (l : List (String × Option (List CatalogItem)))
    (stk : Bool) (hnd : (l.map Prod.fst).Nodup) :
    ((l.map Prod.fst).filter (fun fid => (l.lookup fid).isSome)).map
      (fun fid => fetch_catalog fid ((l.lookup fid).getD none) stk) =
    l.map (fun e => fetch_catalog e.1 e.2 stk) := by
  induction l with
  | nil => rfl
  | cons e rest ih =>
    obtain ⟨k, v⟩ := e
    simp only [List.map_cons, List.nodup_cons] at hnd
    have hne : ∀ fid ∈ rest.map Prod.fst, fid ≠ k := by
      intro fid hf heq
      exact hnd.1 (heq ▸ hf)
    have hlk : ((k, v) :: rest).lookup k = some v := by
      simp [List.lookup]
    have hlk2 : ∀ fid ∈ rest.map Prod.fst,
        ((k, v) :: rest).lookup fid = rest.lookup fid := by
      intro fid hf
      have hbeq : (fid == k) = false := beq_eq_false_iff_ne.mpr (hne fid hf)
      simp [List.lookup, hbeq]
    rw [List.map_cons, List.filter_cons]
    rw [if_pos (by rw [hlk]; rfl)]
    rw [List.map_cons, hlk]
    rw [List.filter_congr (fun fid hf => by rw [hlk2 fid hf])]
    rw [List.map_congr_left (fun fid hf => by
      rw [hlk2 fid (List.mem_of_mem_filter hf)])]
    rw [ih hnd.2, List.map_cons]
    rfl

theorem list_products_combined (l : List (String × Option (List CatalogItem)))
    (stk : Bool) (lim off : Nat) (hnd : (l.map Prod.fst).Nodup) :
    list_products l none stk lim off =
      ⟨(((l.map (fun e => fetch_catalog e.1 e.2 stk)).flatten.drop off).take
          lim).length,
       (l.map (fun e => fetch_catalog e.1 e.2 stk)).flatten.length,
       lim, off,
       ((l.map (fun e => fetch_catalog e.1 e.2 stk)).flatten.drop off).take lim⟩
    := by
  unfold list_products
  dsimp only
  rw [consulted_fetch l stk hnd]

/-- The concatenation of the per-pharmacy contributions, in registry order. -/
def combinedCatalogs (l : List (String × Option (List CatalogItem)))
    (stk : Bool) : List CatalogItem :=
  (l.map (fun e => fetch_catalog e.1 e.2 stk)).flatten

theorem mem_combinedCatalogs (l : List (String × Option (List CatalogItem)))
    (stk : Bool) (x : CatalogItem) (hx : x ∈ combinedCatalogs l stk) :
    ∃ e ∈ l, x ∈ fetch_catalog e.1 e.2 stk := by
  obtain ⟨lst, hlst, hxl⟩ := List.mem_flatten.mp hx
  obtain ⟨e, hel, rfl⟩ := List.mem_map.mp hlst
  exact ⟨e, hel, hxl⟩

theorem list_products_skips_dead_pharmacy
    (a b : List (String × Option (List CatalogItem))) (fid : String)
    (stk : Bool) (lim off : Nat)
    (hnd : ((a ++ (fid, none) :: b).map Prod.fst).Nodup) :
    list_products (a ++ (fid, none) :: b) none stk lim off =
      list_products (a ++ b) none stk lim off := by
  have hsub : List.Sublist ((a ++ b).map Prod.fst)
      ((a ++ (fid, none) :: b).map Prod.fst) :=
    List.Sublist.map _ ((List.sublist_cons_self _ _).append_left a)
  have hnd2 : ((a ++ b).map Prod.fst).Nodup := List.Nodup.sublist hsub hnd
  rw [list_products_combined _ _ _ _ hnd, list_products_combined _ _ _ _ hnd2]
  have hcomb : ((a ++ (fid, none) :: b).map
        (fun e => fetch_catalog e.1 e.2 stk)).flatten =
      ((a ++ b).map (fun e => fetch_catalog e.1 e.2 stk)).flatten := by
    simp [fetch_catalog]
  rw [hcomb]

/-- C6 counterexample: the claim says every returned item is tagged with its
origin pharmacy id, but an item that already carries an `id_farmacia` field
keeps it (line 266 only adds the tag when absent): a catalog item arriving
from pharmacy `farma_001` already tagged `farma_999` is returned with
`farma_999`, which is not its origin id. -/
theorem C6_preexisting_tag_counterexample :
    ((list_products [("farma_001", some [⟨some "farma_999", some 5, "x"⟩])]
        none false 200 0).items.map CatalogItem.id_farmacia) =
      [some "farma_999"] ∧
    "farma_999" ≠ "farma_001" := by
  exact ⟨rfl, by decide⟩

/-- C6 (amended): For the aggregate catalog read, an errored or timed-out
pharmacy contributes an empty list rather than failing the aggregate (a dead
registry entry can be dropped without changing the response); every returned
item carries an `id_farmacia` tag, and — item by item — it is the origin
pharmacy id whenever that source item did not already carry one, while a
pre-existing tag is preserved verbatim, also in mixed responses;
with `in_stock_only` every returned item has stock > 0; the items are the
slice [offset, offset+limit) of the combined list; and the response is
{count, total, limit, offset, items} with count the length of the slice and
total the length of the full combined list. -/
theorem C6_list_products_aggregation
    (l : List (String × Option (List CatalogItem))) (stk : Bool)
    (lim off : Nat) (hnd : (l.map Prod.fst).Nodup) :
    (list_products l none stk lim off).items =
      ((combinedCatalogs l stk).drop off).take lim ∧
    (list_products l none stk lim off).count =
      (list_products l none stk lim off).items.length ∧
    (list_products l none stk lim off).total = (combinedCatalogs l stk).length ∧
    (list_products l none stk lim off).limit = lim ∧
    (list_products l none stk lim off).offset = off ∧
    (∀ x ∈ (list_products l none stk lim off).items, x.id_farmacia.isSome) ∧
    (stk = true → ∀ x ∈ (list_products l none stk lim off).items,
      0 < x.stock.getD 0) ∧
    (∀ x ∈ (list_products l none stk lim off).items,
      ∃ e ∈ l, ∃ its, e.2 = some its ∧ ∃ src ∈ its,
        x.stock = src.stock ∧ x.payload = src.payload ∧
        (src.id_farmacia = none → x.id_farmacia = some e.1) ∧
        (∀ v, src.id_farmacia = some v → x.id_farmacia = some v)) ∧
    (∀ a b fid, l = a ++ (fid, none) :: b →
      list_products l none stk lim off =
        list_products (a ++ b) none stk lim off) := by
  have heq := list_products_combined l stk lim off hnd
  have hmem : ∀ x ∈ (list_products l none stk lim off).items,
      x ∈ combinedCatalogs l stk := by
    intro x hx
    rw [heq] at hx
    exact List.mem_of_mem_drop (List.mem_of_mem_take hx)
  refine ⟨by rw [heq]; rfl, by rw [heq], by rw [heq]; rfl, by rw [heq],
    by rw [heq], ?_, ?_, ?_, ?_⟩
  · intro x hx
    obtain ⟨e, hel, hfe⟩ := mem_combinedCatalogs l stk x (hmem x hx)
    obtain ⟨its, -, src, -, hx2, -⟩ := mem_fetch_catalog e.1 e.2 stk x hfe
    rw [hx2]
    exact tagItem_isSome e.1 src
  · intro hstk x hx
    obtain ⟨e, hel, hfe⟩ := mem_combinedCatalogs l stk x (hmem x hx)
    obtain ⟨its, -, src, -, -, hpos⟩ := mem_fetch_catalog e.1 e.2 stk x hfe
    exact hpos hstk
  · intro x hx
    obtain ⟨e, hel, hfe⟩ := mem_combinedCatalogs l stk x (hmem x hx)
    obtain ⟨its, hits, src, hsrc, hx2, -⟩ := mem_fetch_catalog e.1 e.2 stk x hfe
    refine ⟨e, hel, its, hits, src, hsrc, by rw [hx2, tagItem_stock],
      by rw [hx2, tagItem_payload], ?_, ?_⟩
    · intro hnonesrc
      rw [hx2, tagItem_of_none e.1 src hnonesrc]
    · intro v hv
      rw [hx2, tagItem_of_some e.1 src v hv]
      exact hv
  · intro a b fid hl
    subst hl
    exact list_products_skips_dead_pharmacy a b fid stk lim off hnd

/-- The registry used by the C6 witness: one healthy pharmacy with two fresh
items (one of them out of stock), one dead pharmacy, and one healthy pharmacy
with a mixed response — one item already tagged `farma_999` next to one fresh
item. -/
def c6phs : List (String × Option (List CatalogItem)) :=
  [("farma_001", some [⟨none, some 5, "a"⟩, ⟨none, some 0, "b"⟩]),
   ("farma_002", none),
   ("farma_003", some [⟨some "farma_999", some 2, "c"⟩, ⟨none, some 3, "d"⟩])]

/-- Witness for C6 at `c6phs` with `in_stock_only`, limit 5, offset 1. -/
theorem C6_list_products_aggregation_witness :
    (c6phs.map Prod.fst).Nodup ∧
    ((list_products c6phs none true 5 1).items =
      ((combinedCatalogs c6phs true).drop 1).take 5 ∧
    (list_products c6phs none true 5 1).count =
      (list_products c6phs none true 5 1).items.length ∧
    (list_products c6phs none true 5 1).total =
      (combinedCatalogs c6phs true).length ∧
    (list_products c6phs none true 5 1).limit = 5 ∧
    (list_products c6phs none true 5 1).offset = 1 ∧
    (∀ x ∈ (list_products c6phs none true 5 1).items, x.id_farmacia.isSome) ∧
    (true = true → ∀ x ∈ (list_products c6phs none true 5 1).items,
      0 < x.stock.getD 0) ∧
    (∀ x ∈ (list_products c6phs none true 5 1).items,
      ∃ e ∈ c6phs, ∃ its, e.2 = some its ∧ ∃ src ∈ its,
        x.stock = src.stock ∧ x.payload = src.payload ∧
        (src.id_farmacia = none → x.id_farmacia = some e.1) ∧
        (∀ v, src.id_farmacia = some v → x.id_farmacia = some v)) ∧
    (∀ a b fid, c6phs = a ++ (fid, none) :: b →
      list_products c6phs none true 5 1 =
        list_products (a ++ b) none true 5 1)) :=
  ⟨by decide, C6_list_products_aggregation c6phs true 5 1 (by decide)⟩

/-! ### Facts about the generator's mirror and loop -/

theorem lookup_cons_self {β : Type} (k : String) (v : β)
    (tl : List (String × β)) : ((k, v) :: tl).lookup k = some v := by
  simp [List.lookup]

theorem lookup_cons_ne {β : Type} (k f : String) (v : β)
    (tl : List (String × β)) (h : f ≠ k) :
    ((k, v) :: tl).lookup f = tl.lookup f := by
  have hbeq : (f == k) = false := beq_eq_false_iff_ne.mpr h
  simp [List.lookup, hbeq]

theorem set_eq_take_cons_drop (pool : Pool) (idx : Nat) (x : MirrorItem)
    (hlt : idx < pool.length) :
    pool.set idx x = pool.take idx ++ x :: pool.drop (idx + 1) := by
  rw [List.set_eq_take_append_cons_drop, if_pos hlt]

theorem set_then_erase (pool : Pool) (idx : Nat) (x : MirrorItem)
    (hlt : idx < pool.length) :
    (pool.set idx x).eraseIdx idx = pool.take idx ++ pool.drop (idx + 1) := by
  have hA : (pool.take idx).length = idx := by
    rw [List.length_take]
    omega
  rw [set_eq_take_cons_drop pool idx x hlt]
  rw [List.eraseIdx_eq_take_drop_succ]
  rw [List.take_left' hA]
  rw [List.append_cons, List.drop_left' (by simp [hA])]

theorem decrementAt_spec (pool : Pool) (idx qty : Nat) (it : MirrorItem)
    (h : pool.get? idx = some it) :
    decrementAt pool idx qty =
      if it.stock - (qty : Int) ≤ 0 then pool.take idx ++ pool.drop (idx + 1)
      else pool.take idx ++
        (⟨it.package_ndc_11, it.stock - qty⟩ : MirrorItem) ::
          pool.drop (idx + 1) := by
  have hlt : idx < pool.length := (List.get?_eq_some.mp h).1
  simp only [decrementAt, h]
  by_cases hz : it.stock - (qty : Int) ≤ 0
  · rw [if_pos (by simpa using hz), if_pos hz]
    exact set_then_erase pool idx _ hlt
  · rw [if_neg (by simpa using hz), if_neg hz]
    exact set_eq_take_cons_drop pool idx _ hlt

theorem lookup_apply_local_decrement (pools : Pools) (farm : String)
    (idx qty : Nat) (f : String) :
    (apply_local_decrement pools farm idx qty).lookup f =
      if f = farm then
        (pools.lookup f).map (fun pool => decrementAt pool idx qty)
      else pools.lookup f := by
  induction pools with
  | nil =>
    simp only [apply_local_decrement, List.map_nil]
    split <;> rfl
  | cons e rest ih =>
    obtain ⟨k, pool⟩ := e
    simp only [apply_local_decrement, List.map_cons] at ih ⊢
    by_cases hk : k = farm
    · subst hk
      rw [if_pos rfl]
      by_cases hf : f = k
      · subst hf
        rw [lookup_cons_self, lookup_cons_self, if_pos rfl]
        rfl
      · rw [lookup_cons_ne k f _ _ hf, lookup_cons_ne k f _ _ hf, ih]
    · rw [if_neg hk]
      by_cases hf : f = k
      · subst hf
        rw [lookup_cons_self, lookup_cons_self]
        rw [if_neg hk]
      · rw [lookup_cons_ne k f _ _ hf, lookup_cons_ne k f _ _ hf, ih]

theorem erased_item_absent (pool : Pool) (idx : Nat) (it : MirrorItem)
    (h : pool.get? idx = some it)
    (hnn : (pool.map MirrorItem.package_ndc_11).Nodup) :
    ∀ x ∈ pool.take idx ++ pool.drop (idx + 1),
      x.package_ndc_11 ≠ it.package_ndc_11 := by
  have hlt : idx < pool.length := (List.get?_eq_some.mp h).1
  have hget : pool.get ⟨idx, hlt⟩ = it := (List.get?_eq_some.mp h).2
  have hdecomp : pool = pool.take idx ++ it :: pool.drop (idx + 1) := by
    conv_lhs => rw [← List.take_append_drop idx pool]
    congr 1
    rw [List.drop_eq_getElem_cons hlt, ← hget]
    rfl
  intro x hx hcontra
  rw [hdecomp, List.map_append, List.map_cons] at hnn
  obtain ⟨-, hnd2, hdis⟩ := List.nodup_append.mp hnn
  rcases List.mem_append.mp hx with hA | hB
  · have h1 : x.package_ndc_11 ∈ (pool.take idx).map MirrorItem.package_ndc_11 :=
      List.mem_map_of_mem _ hA
    have h2 := hdis h1
    rw [hcontra] at h2
    exact h2 (List.mem_cons_self _ _)
  · have h1 : x.package_ndc_11 ∈ (pool.drop (idx + 1)).map
        MirrorItem.package_ndc_11 := List.mem_map_of_mem _ hB
    rw [hcontra] at h1
    exact (List.nodup_cons.mp hnd2).1 h1

theorem runnerStep_http_pools (st : RunnerState) (f : String) (i q s : Nat) :
    (runnerStep st (.attempt f i q (.http s))).pools =
      if 200 ≤ s ∧ s < 300 then apply_local_decrement st.pools f i q
      else st.pools := by
  by_cases hA : 200 ≤ s ∧ s < 300
  · rw [if_pos hA]
    simp only [runnerStep]
    rw [if_pos hA]
  · rw [if_neg hA]
    simp only [runnerStep]
    rw [if_neg hA]
    split
    · rfl
    · split
      · rfl
      · rfl

theorem runnerStep_attempted (st : RunnerState) (env : IterEnv) :
    (runnerStep st env).stats.attempted = st.stats.attempted + 1 := by
  cases env with
  | noCandidate => rfl
  | attempt f i q post =>
    cases post <;> simp only [runnerStep] <;> (repeat' split) <;> rfl

theorem runnerStep_noCandidate_eq (st : RunnerState) :
    runnerStep st .noCandidate =
      ⟨⟨st.stats.attempted + 1, st.stats.created, st.stats.failed_4xx,
        st.stats.failed_5xx, st.stats.failed_timeout,
        st.stats.no_local_candidate + 1⟩, st.pools⟩ := rfl

theorem runnerLoop_succ (st : RunnerState) (envs : Nat → IterEnv) (n : Nat) :
    runnerLoop st envs (n + 1) = runnerStep (runnerLoop st envs n) (envs n) := by
  unfold runnerLoop
  rw [List.range_succ, List.foldl_append]
  rfl

theorem runnerLoop_attempted (st : RunnerState) (envs : Nat → IterEnv)
    (target : Nat) :
    (runnerLoop st envs target).stats.attempted =
      st.stats.attempted + target := by
  induction target with
  | zero => rfl
  | succ n ih =>
    rw [runnerLoop_succ, runnerStep_attempted, ih]
    omega

theorem totalPosts_eq_filter (envs : Nat → IterEnv) (target : Nat) :
    totalPosts envs target =
      ((List.range target).filter
        (fun i => decide (envs i ≠ IterEnv.noCandidate))).length := by
  induction target with
  | zero => rfl
  | succ n ih =>
    unfold totalPosts at ih ⊢
    rw [List.range_succ, List.map_append, List.sum_append,
      List.filter_append, List.length_append, ih]
    cases h : envs n with
    | noCandidate => simp [iterPosts, h]
    | attempt f i q p => simp [iterPosts, h]

/-- C7: On a 2xx answer the runner applies the local decrement: the selected
pharmacy's mirror entry at the chosen index loses exactly the requested
quantity, the entry is removed outright when the decremented stock reaches 0
or below — after which no entry with that product code remains in that
pharmacy's mirror, so it can never be selected again — and other pharmacies'
mirrors are untouched.  On any 4xx answer the whole mirror is left exactly
as it was. -/
theorem C7_mirror_decrement_on_success_only
    (st : Stats) (pools : Pools) (farm : String) (pool : Pool)
    (idx qty : Nat) (it : MirrorItem)
    (hfarm : pools.lookup farm = some pool)
    (hidx : pool.get? idx = some it)
    (hnn : (pool.map MirrorItem.package_ndc_11).Nodup) :
    (∀ s, 200 ≤ s → s < 300 →
      ((runnerStep ⟨st, pools⟩
          (.attempt farm idx qty (.http s))).pools.lookup farm =
        some (if it.stock - (qty : Int) ≤ 0
          then pool.take idx ++ pool.drop (idx + 1)
          else pool.take idx ++
            (⟨it.package_ndc_11, it.stock - qty⟩ : MirrorItem) ::
              pool.drop (idx + 1)) ∧
       ∀ f, f ≠ farm →
         (runnerStep ⟨st, pools⟩
             (.attempt farm idx qty (.http s))).pools.lookup f =
           pools.lookup f)) ∧
    (it.stock - (qty : Int) ≤ 0 → ∀ s, 200 ≤ s → s < 300 →
      ∀ p2, (runnerStep ⟨st, pools⟩
          (.attempt farm idx qty (.http s))).pools.lookup farm = some p2 →
        ∀ x ∈ p2, x.package_ndc_11 ≠ it.package_ndc_11) ∧
    (∀ s, 400 ≤ s → s < 500 →
      (runnerStep ⟨st, pools⟩ (.attempt farm idx qty (.http s))).pools =
        pools) := by
  have hpos : ∀ s, 200 ≤ s → s < 300 →
      (runnerStep ⟨st, pools⟩ (.attempt farm idx qty (.http s))).pools =
        apply_local_decrement pools farm idx qty := by
    intro s h1 h2
    rw [runnerStep_http_pools]
    rw [if_pos ⟨h1, h2⟩]
  have hlook : (apply_local_decrement pools farm idx qty).lookup farm =
      some (if it.stock - (qty : Int) ≤ 0
        then pool.take idx ++ pool.drop (idx + 1)
        else pool.take idx ++
          (⟨it.package_ndc_11, it.stock - qty⟩ : MirrorItem) ::
            pool.drop (idx + 1)) := by
    rw [lookup_apply_local_decrement, if_pos rfl, hfarm]
    show some (decrementAt pool idx qty) = _
    rw [decrementAt_spec pool idx qty it hidx]
  refine ⟨?_, ?_, ?_⟩
  · intro s h1 h2
    rw [hpos s h1 h2]
    refine ⟨hlook, ?_⟩
    intro f hf
    rw [lookup_apply_local_decrement, if_neg hf]
  · intro hz s h1 h2 p2 hp2
    rw [hpos s h1 h2, hlook] at hp2
    injection hp2 with hp2
    rw [if_pos hz] at hp2
    subst hp2
    exact erased_item_absent pool idx it hidx hnn
  · intro s h1 h2
    rw [runnerStep_http_pools]
    rw [if_neg (by omega)]

/-- Witness for C7: a mirror with two products; buying 2 of the second
(stock 2) empties and removes it. -/
theorem C7_mirror_decrement_on_success_only_witness :
    ([("farma_001", [(⟨"00000000001", 5⟩ : MirrorItem), ⟨"00000000002", 2⟩])]
        : Pools).lookup "farma_001" =
      some [⟨"00000000001", 5⟩, ⟨"00000000002", 2⟩] ∧
    ([(⟨"00000000001", 5⟩ : MirrorItem), ⟨"00000000002", 2⟩].get? 1 =
      some ⟨"00000000002", 2⟩) ∧
    (∀ s, 200 ≤ s → s < 300 →
      ((runnerStep ⟨⟨0, 0, 0, 0, 0, 0⟩,
          [("farma_001", [⟨"00000000001", 5⟩, ⟨"00000000002", 2⟩])]⟩
          (.attempt "farma_001" 1 2 (.http s))).pools.lookup "farma_001" =
        some (if (2 : Int) - (2 : Nat) ≤ 0
          then [(⟨"00000000001", 5⟩ : MirrorItem),
            ⟨"00000000002", 2⟩].take 1 ++
            [(⟨"00000000001", 5⟩ : MirrorItem), ⟨"00000000002", 2⟩].drop 2
          else [(⟨"00000000001", 5⟩ : MirrorItem),
            ⟨"00000000002", 2⟩].take 1 ++
            (⟨"00000000002", (2 : Int) - (2 : Nat)⟩ : MirrorItem) ::
              [(⟨"00000000001", 5⟩ : MirrorItem), ⟨"00000000002", 2⟩].drop 2) ∧
       ∀ f, f ≠ "farma_001" →
         (runnerStep ⟨⟨0, 0, 0, 0, 0, 0⟩,
             [("farma_001", [⟨"00000000001", 5⟩, ⟨"00000000002", 2⟩])]⟩
             (.attempt "farma_001" 1 2 (.http s))).pools.lookup f =
           ([("farma_001", [(⟨"00000000001", 5⟩ : MirrorItem),
             ⟨"00000000002", 2⟩])] : Pools).lookup f)) ∧
    ((2 : Int) - (2 : Nat) ≤ 0 → ∀ s, 200 ≤ s → s < 300 →
      ∀ p2, (runnerStep ⟨⟨0, 0, 0, 0, 0, 0⟩,
          [("farma_001", [⟨"00000000001", 5⟩, ⟨"00000000002", 2⟩])]⟩
          (.attempt "farma_001" 1 2 (.http s))).pools.lookup "farma_001" =
            some p2 →
        ∀ x ∈ p2, x.package_ndc_11 ≠ "00000000002") ∧
    (∀ s, 400 ≤ s → s < 500 →
      (runnerStep ⟨⟨0, 0, 0, 0, 0, 0⟩,
          [("farma_001", [⟨"00000000001", 5⟩, ⟨"00000000002", 2⟩])]⟩
          (.attempt "farma_001" 1 2 (.http s))).pools =
        [("farma_001", [⟨"00000000001", 5⟩, ⟨"00000000002", 2⟩])]) :=
  ⟨by decide, by decide,
   C7_mirror_decrement_on_success_only ⟨0, 0, 0, 0, 0, 0⟩
     [("farma_001", [⟨"00000000001", 5⟩, ⟨"00000000002", 2⟩])] "farma_001"
     [⟨"00000000001", 5⟩, ⟨"00000000002", 2⟩] 1 2 ⟨"00000000002", 2⟩
     (by decide) (by decide) (by decide)⟩

/-- C8 (code-bug exhibit): one loop iteration whose POST raises a timeout
increments both `failed_timeout` (in the except handler) and `failed_5xx`
(via the `status == 0` fallback of the classification), so the five outcome
counters sum to attempted + 1; a non-timeout transport error likewise
increments `failed_5xx` twice.  The claimed invariant — exactly one outcome
counter per iteration, timeouts counted only in `failed_timeout` — fails. -/
theorem C8_timeout_counted_twice :
    (runnerStep ⟨⟨0, 0, 0, 0, 0, 0⟩, []⟩
        (.attempt "farma_001" 0 1 .timeout)).stats = ⟨1, 0, 0, 1, 1, 0⟩ ∧
    (runnerStep ⟨⟨0, 0, 0, 0, 0, 0⟩, []⟩
        (.attempt "farma_001" 0 1 .transportError)).stats =
      ⟨1, 0, 0, 2, 0, 0⟩ :=
  ⟨rfl, rfl⟩

/-- C9: The generator run is a bounded loop of exactly `target` iterations
(one `runnerStep` per index below `target`): every iteration counts once in
`attempted`; the run makes exactly one POST per iteration that built a
payload and none for a no-candidate iteration — never more, so a failed
attempt is never retried — hence at most `target` POSTs in total; and a
no-candidate iteration touches nothing but the `attempted` and
`no_local_candidate` counters. -/
theorem C9_runner_loop_bounded
    (st : RunnerState) (envs : Nat → IterEnv) (target : Nat) :
    (runnerLoop st envs target).stats.attempted =
      st.stats.attempted + target ∧
    runnerLoop st envs (target + 1) =
      runnerStep (runnerLoop st envs target) (envs target) ∧
    totalPosts envs target =
      ((List.range target).filter
        (fun i => decide (envs i ≠ IterEnv.noCandidate))).length ∧
    totalPosts envs target ≤ target ∧
    (∀ s : RunnerState, (runnerStep s .noCandidate).pools = s.pools ∧
      (runnerStep s .noCandidate).stats.attempted = s.stats.attempted + 1 ∧
      (runnerStep s .noCandidate).stats.no_local_candidate =
        s.stats.no_local_candidate + 1 ∧
      (runnerStep s .noCandidate).stats.created = s.stats.created ∧
      iterPosts .noCandidate = 0) :=
  ⟨runnerLoop_attempted st envs target,
   runnerLoop_succ st envs target,
   totalPosts_eq_filter envs target,
   by
     rw [totalPosts_eq_filter]
     calc ((List.range target).filter
            (fun i => decide (envs i ≠ IterEnv.noCandidate))).length
         ≤ (List.range target).length := List.length_filter_le _ _
       _ = target := List.length_range target,
   fun s => ⟨rfl, rfl, rfl, rfl, rfl⟩⟩

end FarmAhorra
